import Mathlib

/-!
Verification of the Melon protocol fund accounting and valuation code:
a shallow embedding of `Vault.sol` (share accounting, fee calculation,
subscribe/redeem paths) and `ValueInterpreter.sol` (asset valuation),
with theorems settling the spec claims.

uint256 arithmetic is modelled on `Nat` with explicit checks: the
SafeMath library (both the 2017 Melon SafeMath used by `Vault.sol` and
the OpenZeppelin SafeMath used by `ValueInterpreter.sol`) asserts on
overflow, underflow and zero division, which we model as `Option.none`
(a reverted transaction). Unchecked Solidity exponentiation `10 ** d`
wraps modulo 2^256 and is modelled as such.
-/

/-- Upper bound of uint256 values: 2 ^ 256. -/
def uintBound : Nat := 2 ^ 256

/-- SafeMath add: reverts (none) on uint256 overflow. -/
def cadd (a b : Nat) : Option Nat :=
  if a + b < uintBound then some (a + b) else none

/-- SafeMath mul: reverts (none) on uint256 overflow. -/
def cmul (a b : Nat) : Option Nat :=
  if a * b < uintBound then some (a * b) else none

/-- SafeMath sub: reverts (none) on underflow. -/
def csub (a b : Nat) : Option Nat :=
  if b ≤ a then some (a - b) else none

/-- SafeMath div: reverts (none) on division by zero. -/
def cdiv (a b : Nat) : Option Nat :=
  if b = 0 then none else some (a / b)

/-- Unchecked Solidity `10 ** d`, wrapping modulo 2^256. -/
def pow10 (d : Nat) : Nat := (10 ^ d) % uintBound

/-! ## ValueInterpreter.sol embedding

Addresses are modelled as `Nat`, with `0` the zero address. The external
price feeds and ERC20 metadata reads are modelled as an environment of
pure functions: `primSupported`/`derivSupported` are the `isSupportedAsset`
views of the primitive and derivative price feeds, `getCanonicalRate`
returns `(rate, isValid, timestamp)`, `getLiveRate` returns
`(rate, isValid)`, `getRatesToUnderlyings` returns the parallel arrays
`(underlyings, rates)`, and `decimals` is `IERC20Extended.decimals`. -/

/-- External collaborators of `ValueInterpreter`. -/
structure PriceEnv where
  primSupported : Nat → Bool
  derivSupported : Nat → Bool
  getCanonicalRate : Nat → Nat → Nat × Bool × Nat
  getLiveRate : Nat → Nat → Nat × Bool
  getRatesToUnderlyings : Nat → List Nat × List Nat
  decimals : Nat → Nat

/-- Embedding of `__calcDenormalizedConversionAmount`:
`rate * amount * 10^(decimals quote) / 10^(18 + decimals base)`, with
SafeMath `mul`/`div`/`add` (RATE_PRECISION = 18). -/
def calcDenormalizedConversionAmount (env : PriceEnv) (base amount quote rate : Nat) :
    Option Nat := do
  let x ← cmul rate amount
  let y ← cmul x (pow10 (env.decimals quote))
  let e ← cadd 18 (env.decimals base)
  cdiv y (pow10 e)

/-- Embedding of `__calcPrimitiveValue`: read the rate (live or canonical) from the
primitive feed, convert the amount, and return the feed validity flag. -/
def calcPrimitiveValue (env : PriceEnv) (primFeed prim amount quote : Nat)
    (useLive : Bool) : Option (Nat × Bool) := do
  let rv := if useLive then env.getLiveRate prim quote
            else ((env.getCanonicalRate prim quote).1, (env.getCanonicalRate prim quote).2.1)
  let value ← calcDenormalizedConversionAmount env prim amount quote rv.1
  pure (value, rv.2)

/-- The loop body of `__calcDerivativeValue`: iterate over the
underlyings, index the parallel `rates` array (reverting if it is too
short), convert the derivative amount into an underlying amount, value
it recursively through `recv`, and accumulate the value sum and the
AND of the validity flags. -/
def derivLoop (recv : Nat → Nat → Option (Nat × Bool)) (conv : Nat → Nat → Option Nat) :
    List Nat → List Nat → Nat → Bool → Option (Nat × Bool)
  | [], _, acc, ok => some (acc, ok)
  | _ :: _, [], _, _ => none
  | u :: us, r :: rs, acc, ok => do
      let ua ← conv u r
      let res ← recv u ua
      let acc2 ← cadd acc res.1
      derivLoop recv conv us rs acc2 (ok && res.2)

/-- Embedding of `__calcDerivativeValue` with its recursive `__calcAssetValue` call
abstracted as `recv`. -/
def calcDerivativeValueGo (env : PriceEnv) (recv : Nat → Nat → Option (Nat × Bool))
    (deriv amount : Nat) : Option (Nat × Bool) :=
  let pair := env.getRatesToUnderlyings deriv
  derivLoop recv (fun u r => calcDenormalizedConversionAmount env deriv amount u r)
    pair.1 pair.2 0 true

/-- Embedding of `__calcAssetValue`. The recursion through derivative underlyings is
bounded by a fuel parameter standing for the EVM call-stack/gas bound;
exhausted fuel is a revert (`none`). -/
def calcAssetValue (env : PriceEnv) :
    Nat → Nat → Nat → Nat → Nat → Nat → Bool → Option (Nat × Bool)
  | 0, _, _, _, _, _, _ => none
  | fuel + 1, primFeed, derivFeed, base, amount, quote, useLive =>
      if primFeed = 0 ∨ base = 0 ∨ quote = 0 ∨ amount = 0 ∨
          env.primSupported quote = false then
        some (0, false)
      else if env.primSupported base then
        calcPrimitiveValue env primFeed base amount quote useLive
      else if derivFeed ≠ 0 ∧ env.derivSupported base then
        calcDerivativeValueGo env
          (fun u ua => calcAssetValue env fuel primFeed derivFeed u ua quote useLive)
          base amount
      else some (0, false)

/-- Embedding of `__calcDerivativeValue`, recursing into `calcAssetValue` at the
given fuel. -/
def calcDerivativeValue (env : PriceEnv)
    (fuel primFeed derivFeed deriv amount quote : Nat) (useLive : Bool) :
    Option (Nat × Bool) :=
  calcDerivativeValueGo env
    (fun u ua => calcAssetValue env fuel primFeed derivFeed u ua quote useLive)
    deriv amount

/-- Embedding of `calcCanonicalAssetValue` public entry point. -/
def calcCanonicalAssetValue (env : PriceEnv)
    (fuel primFeed derivFeed base amount quote : Nat) : Option (Nat × Bool) :=
  calcAssetValue env fuel primFeed derivFeed base amount quote false

/-- Embedding of `calcLiveAssetValue` public entry point. -/
def calcLiveAssetValue (env : PriceEnv)
    (fuel primFeed derivFeed base amount quote : Nat) : Option (Nat × Bool) :=
  calcAssetValue env fuel primFeed derivFeed base amount quote true

/-! ## Vault.sol embedding

Holder addresses are `Nat`. The share ledger (the ERC20 `balances`
mapping restricted to its support) is an association list; `lookupBal`
reads a balance (0 when absent, as for a Solidity mapping) and `setBal`
writes one. The external collaborators of the Vault (current time, the
universe's asset list with the price feed data and token balances read
through external calls, the rewards module, and the participation
module's permission checks) form a `VaultEnv`. -/

/-- The share ledger: an association list from holder address to
share balance. -/
def Ledger := List (Nat × Nat)
deriving DecidableEq

/-- Balance of a holder (0 if absent, like a Solidity mapping). -/
def lookupBal : Ledger → Nat → Nat
  | [], _ => 0
  | (a, v) :: rest, r => if a = r then v else lookupBal rest r

/-- Write a holder's balance (update the first entry, append if absent). -/
def setBal : Ledger → Nat → Nat → Ledger
  | [], r, v => [(r, v)]
  | (a, w) :: rest, r, v =>
      if a = r then (r, v) :: rest else (a, w) :: setBal rest r v

/-- Sum of all holders' share balances. -/
def sumBal (l : Ledger) : Nat := (l.map Prod.snd).sum

/-- The `Calculations` struct of `Vault.sol`. -/
structure Calculations where
  gav : Nat
  managementReward : Nat
  performanceReward : Nat
  unclaimedRewards : Nat
  nav : Nat
  sharePrice : Nat
  totalSupply : Nat
  timestamp : Nat
deriving DecidableEq

/-- Data the Vault reads about one universe asset through external
calls: its address, `balanceOf(this)`, `balanceOf(msg.sender)`,
`getDecimals()`, `getPrice(ofAsset)` and the price feed's
`getQuoteAsset()`. -/
structure AssetInfo where
  addr : Nat
  vaultBalance : Nat
  senderBalance : Nat
  decimals : Nat
  price : Nat
  feedQuoteAsset : Nat
deriving DecidableEq

/-- External collaborators of the Vault: block time, the universe asset
list, the reference asset, the rewards module
(`calculateManagementReward timeDifference gav`,
`calculatePerformanceReward sharePriceDifference totalSupply`) and the
participation module's permission checks. -/
structure VaultEnv where
  now : Nat
  assets : List AssetInfo
  referenceAsset : Nat
  calculateManagementReward : Nat → Nat → Nat
  calculatePerformanceReward : Nat → Nat → Nat
  isSubscriberPermitted : Bool
  isSubscribePermitted : Bool
  isRedeemPermitted : Bool

/-- Mutable state of the Vault contract. -/
structure VaultState where
  owner : Nat
  balances : Ledger
  totalSupply : Nat
  baseUnitsPerShare : Nat
  subscriptionFee : Nat
  atLastPayout : Calculations
deriving DecidableEq

/-- Embedding of `SUBSCRIBE_FEE_DIVISOR` constant of `Vault.sol`. -/
def SUBSCRIBE_FEE_DIVISOR : Nat := 100000

/-- Embedding of `calcValuePerShare`: requires `0 < totalSupply` (the `pre_cond`
reverts otherwise), then computes
`value * baseUnitsPerShare / totalSupply` with SafeMath. -/
def calcValuePerShare (s : VaultState) (value : Nat) : Option Nat :=
  if 0 < s.totalSupply then do
    let x ← cmul value s.baseUnitsPerShare
    cdiv x s.totalSupply
  else none

/-- One iteration group of the `calcGav` loop: assert the feed quote
asset is the reference asset, price the asset (identity price
`10 ** decimals` when the asset is the quote asset itself), and
accumulate `holdings * price / 10 ** decimals`. -/
def calcGavLoop (ref : Nat) : List AssetInfo → Nat → Option Nat
  | [], acc => some acc
  | a :: rest, acc =>
      if ref = a.feedQuoteAsset then do
        let assetPrice := if a.addr = a.feedQuoteAsset then pow10 a.decimals else a.price
        let x ← cmul a.vaultBalance assetPrice
        let y ← cdiv x (pow10 a.decimals)
        let acc2 ← cadd acc y
        calcGavLoop ref rest acc2
      else none

/-- Embedding of `calcGav`: gross asset value of the vault holdings. -/
def calcGav (env : VaultEnv) : Option Nat :=
  calcGavLoop env.referenceAsset env.assets 0

/-- The performance-reward conditional of `calcUnclaimedRewards`:
`performanceReward` stays 0 unless `totalSupply != 0`, in which case the
current share price is computed from `gav` and compared against the
share price recorded at the last payout. -/
def calcPerformanceReward (env : VaultEnv) (s : VaultState) (gav : Nat) :
    Option Nat :=
  if s.totalSupply ≠ 0 then do
    let currSharePrice ← calcValuePerShare s gav
    if s.atLastPayout.sharePrice < currSharePrice then
      pure (env.calculatePerformanceReward
        (currSharePrice - s.atLastPayout.sharePrice) s.totalSupply)
    else pure 0
  else pure 0

/-- Embedding of `calcUnclaimedRewards`: management reward from the rewards module on
the elapsed time since the last payout; performance reward only when
`totalSupply != 0` and the current share price (computed from `gav`)
exceeds the share price recorded at the last payout. -/
def calcUnclaimedRewards (env : VaultEnv) (s : VaultState) (gav : Nat) :
    Option (Nat × Nat × Nat) := do
  let timeDifference ← csub env.now s.atLastPayout.timestamp
  let managementReward := env.calculateManagementReward timeDifference gav
  let performanceReward ← calcPerformanceReward env s gav
  let unclaimedRewards ← cadd managementReward performanceReward
  pure (managementReward, performanceReward, unclaimedRewards)

/-- Embedding of `calcNav`: `gav.sub(unclaimedRewards)` (SafeMath). -/
def calcNav (gav unclaimedRewards : Nat) : Option Nat :=
  csub gav unclaimedRewards

/-- The share-price ternary of `performCalculations`:
`isPastZero(totalSupply) ? calcValuePerShare(nav) : baseUnitsPerShare`. -/
def calcSharePriceOrDefault (s : VaultState) (nav : Nat) : Option Nat :=
  if 0 < s.totalSupply then calcValuePerShare s nav
  else pure s.baseUnitsPerShare

/-- Embedding of `performCalculations`: gav, rewards, nav and share price (the share
price defaults to `baseUnitsPerShare` when `totalSupply` is zero). -/
def performCalculations (env : VaultEnv) (s : VaultState) :
    Option (Nat × Nat × Nat × Nat × Nat × Nat) := do
  let gav ← calcGav env
  let r ← calcUnclaimedRewards env s gav
  let nav ← calcNav gav r.2.2
  let sharePrice ← calcSharePriceOrDefault s nav
  pure (gav, r.1, r.2.1, r.2.2, nav, sharePrice)

/-- Embedding of `priceForNumShares`: `numShares * sharePrice / baseUnitsPerShare`. -/
def priceForNumShares (env : VaultEnv) (s : VaultState) (numShares : Nat) :
    Option Nat := do
  let r ← performCalculations env s
  let x ← cmul numShares r.2.2.2.2.2
  cdiv x s.baseUnitsPerShare

/-- Embedding of `subscribePriceForNumShares`: subscription price after the
subscription fee. -/
def subscribePriceForNumShares (env : VaultEnv) (s : VaultState) (numShares : Nat) :
    Option Nat := do
  let p ← priceForNumShares env s numShares
  let f ← csub SUBSCRIBE_FEE_DIVISOR s.subscriptionFee
  let x ← cmul p f
  cdiv x SUBSCRIBE_FEE_DIVISOR

/-- Embedding of `addShares`: `balances[recipient] = balances[recipient].add(n)`. -/
def addShares (l : Ledger) (r n : Nat) : Option Ledger :=
  (cadd (lookupBal l r) n).map (setBal l r)

/-- Embedding of `subShares`: `balances[recipient] = balances[recipient].sub(n)`. -/
def subShares (l : Ledger) (r n : Nat) : Option Ledger :=
  (csub (lookupBal l r) n).map (setBal l r)

/-- Embedding of `createShares`: increase `totalSupply` and the recipient balance. -/
def createShares (s : VaultState) (r n : Nat) : Option VaultState := do
  let t ← cadd s.totalSupply n
  let b ← addShares s.balances r n
  pure { s with totalSupply := t, balances := b }

/-- Embedding of `annihilateShares`: decrease `totalSupply` and the recipient balance. -/
def annihilateShares (s : VaultState) (r n : Nat) : Option VaultState := do
  let t ← csub s.totalSupply n
  let b ← subShares s.balances r n
  pure { s with totalSupply := t, balances := b }

/-- A record of one external ERC20 transfer call made by the Vault,
together with the share ledger and total supply at the moment of the
call — the share accounting state that reentrant attacker code invoked
by the transfer callback would observe. -/
structure ExtCall where
  asset : Nat
  recipient : Nat
  amount : Nat
  ledgerAtCall : Ledger
  supplyAtCall : Nat
deriving DecidableEq

/-- The loop of `allocateSlice`: for every universe asset with non-zero
vault holdings, compute the pro-rata allocation amount, require the
sender holds it, and `transferFrom` it into the vault. -/
def allocLoop (totalSupply numShares : Nat) : List AssetInfo → Option Unit
  | [] => some ()
  | a :: rest =>
      if a.vaultBalance = 0 then allocLoop totalSupply numShares rest
      else do
        let x ← cmul a.vaultBalance numShares
        let amt ← cdiv x totalSupply
        if amt ≤ a.senderBalance then allocLoop totalSupply numShares rest
        else none

/-- Embedding of `allocateSlice`: inbound pro-rata transfers first, share creation
after the external calls. -/
def allocateSlice (env : VaultEnv) (s : VaultState) (caller numShares : Nat) :
    Option VaultState := do
  let _ ← allocLoop s.totalSupply numShares env.assets
  createShares s caller numShares

/-- Embedding of `subscribeUsingSlice` with its two `pre_cond`s. -/
def subscribeUsingSlice (env : VaultEnv) (s : VaultState) (caller numShares : Nat) :
    Option VaultState :=
  if 0 < s.totalSupply then
    if 0 < numShares then allocateSlice env s caller numShares
    else none
  else none

/-- Embedding of `subscribe`: for zero `numShares` delegate to `subscribeUsingSlice`
(which then reverts on its `pre_cond`); otherwise check the offered
value against the subscription price, pull in the reference asset, and
create the shares. -/
def subscribe (env : VaultEnv) (s : VaultState)
    (caller numShares offeredValue : Nat) : Option VaultState :=
  if env.isSubscriberPermitted then
    if env.isSubscribePermitted then
      if numShares = 0 then subscribeUsingSlice env s caller numShares
      else do
        let actualValue ← subscribePriceForNumShares env s numShares
        if actualValue ≤ offeredValue then createShares s caller numShares
        else none
    else none
  else none

/-- Embedding of `redeem`: price the shares, transfer the reference asset out
(recording the share accounting state at the moment of the external
call), and only then annihilate the shares. -/
def redeem (env : VaultEnv) (s : VaultState)
    (caller numShares requestedValue : Nat) : Option (VaultState × List ExtCall) :=
  if 0 < numShares then
    if env.isRedeemPermitted then do
      let actualValue ← priceForNumShares env s numShares
      if requestedValue ≤ actualValue then do
        let call1 : ExtCall :=
          ⟨env.referenceAsset, caller, actualValue, s.balances, s.totalSupply⟩
        let s2 ← annihilateShares s caller numShares
        pure (s2, [call1])
      else none
    else none
  else none

/-- The loop of `separateSlice`: one outbound transfer per universe
asset with non-zero vault holdings, each recorded with the share
accounting state at the moment of the call. -/
def sliceLoop (caller prevTotalSupply numShares : Nat) (led : Ledger) (sup : Nat) :
    List AssetInfo → Option (List ExtCall)
  | [] => some []
  | a :: rest =>
      if a.vaultBalance = 0 then sliceLoop caller prevTotalSupply numShares led sup rest
      else do
        let x ← cmul a.vaultBalance numShares
        let amt ← cdiv x prevTotalSupply
        let calls ← sliceLoop caller prevTotalSupply numShares led sup rest
        pure (⟨a.addr, caller, amt, led, sup⟩ :: calls)

/-- Embedding of `separateSlice`: compute the divisor
`totalSupply.sub(atLastPayout.unclaimedRewards)`, assert it positive,
destroy the shares before the external calls, then transfer the
pro-rata amounts out. -/
def separateSlice (env : VaultEnv) (s : VaultState) (caller numShares : Nat) :
    Option (VaultState × List ExtCall) := do
  let prevTotalSupply ← csub s.totalSupply s.atLastPayout.unclaimedRewards
  if 0 < prevTotalSupply then do
    let s2 ← annihilateShares s caller numShares
    let calls ← sliceLoop caller prevTotalSupply numShares s2.balances s2.totalSupply env.assets
    pure (s2, calls)
  else none

/-- Embedding of `redeemUsingSlice` with its balance `pre_cond`. -/
def redeemUsingSlice (env : VaultEnv) (s : VaultState) (caller numShares : Nat) :
    Option (VaultState × List ExtCall) :=
  if numShares ≤ lookupBal s.balances caller then separateSlice env s caller numShares
  else none

/-- Embedding of `convertUnclaimedRewards`: owner-only; perform the calculations,
assert a positive gav, add `totalSupply * unclaimedRewards / gav` shares
to the owner's balance (via `addShares`, leaving `totalSupply`
unchanged), and overwrite the `atLastPayout` snapshot. -/
def convertUnclaimedRewards (env : VaultEnv) (s : VaultState) (caller : Nat) :
    Option VaultState :=
  if caller = s.owner then do
    let r ← performCalculations env s
    if 0 < r.1 then do
      let x ← cmul s.totalSupply r.2.2.2.1
      let numShares ← cdiv x r.1
      let b ← addShares s.balances s.owner numShares
      pure { s with
               balances := b
               atLastPayout :=
                 ⟨r.1, r.2.1, r.2.2.1, r.2.2.2.1, r.2.2.2.2.1, r.2.2.2.2.2,
                  s.totalSupply, env.now⟩ }
    else none
  else none

/-! ## Ledger lemmas -/

/-- Reading back a written balance. -/
theorem lookupBal_setBal_self (l : Ledger) (r v : Nat) :
    lookupBal (setBal l r v) r = v := by
  induction l with
  | nil => simp [setBal, lookupBal]
  | cons hd tl ih =>
      obtain ⟨a, w⟩ := hd
      by_cases h : a = r
      · simp [setBal, h, lookupBal]
      · simp [setBal, h, lookupBal, ih]

/-- Writing a balance changes the ledger sum by the difference between
the new and the old value. -/
theorem sumBal_setBal (l : Ledger) (r v : Nat) :
    sumBal (setBal l r v) + lookupBal l r = sumBal l + v := by
  induction l with
  | nil => simp [setBal, lookupBal, sumBal]
  | cons hd tl ih =>
      obtain ⟨a, w⟩ := hd
      by_cases h : a = r
      · simp [setBal, h, lookupBal, sumBal]
        omega
      · simp [setBal, h, lookupBal, sumBal] at ih ⊢
        omega

/-- A successful `addShares` increases the ledger sum and the recipient
balance by the added amount. -/
theorem addShares_spec (l : Ledger) (r n : Nat) (l2 : Ledger)
    (h : addShares l r n = some l2) :
    sumBal l2 = sumBal l + n ∧ lookupBal l2 r = lookupBal l r + n := by
  unfold addShares cadd at h
  by_cases hb : lookupBal l r + n < uintBound
  · simp only [hb, if_pos, Option.map_some] at h
    obtain rfl : setBal l r (lookupBal l r + n) = l2 := by
      exact Option.some.inj h
    refine ⟨?_, lookupBal_setBal_self l r _⟩
    have := sumBal_setBal l r (lookupBal l r + n)
    omega
  · simp [hb] at h

/-- A successful `subShares` decreases the ledger sum and the recipient
balance by the subtracted amount. -/
theorem subShares_spec (l : Ledger) (r n : Nat) (l2 : Ledger)
    (h : subShares l r n = some l2) :
    sumBal l2 + n = sumBal l ∧ lookupBal l2 r + n = lookupBal l r := by
  unfold subShares csub at h
  by_cases hb : n ≤ lookupBal l r
  · simp only [hb, if_pos, Option.map_some] at h
    obtain rfl : setBal l r (lookupBal l r - n) = l2 := by
      exact Option.some.inj h
    have h1 := sumBal_setBal l r (lookupBal l r - n)
    have h2 := lookupBal_setBal_self l r (lookupBal l r - n)
    omega
  · simp [hb] at h

/-- A successful `createShares` increases the total supply, the ledger
sum and the recipient balance by the created amount, leaving the other
state fields unchanged. -/
theorem createShares_spec (s : VaultState) (r n : Nat) (s2 : VaultState)
    (h : createShares s r n = some s2) :
    s2.totalSupply = s.totalSupply + n ∧ sumBal s2.balances = sumBal s.balances + n ∧
    lookupBal s2.balances r = lookupBal s.balances r + n ∧
    s2.owner = s.owner ∧ s2.baseUnitsPerShare = s.baseUnitsPerShare ∧
    s2.atLastPayout = s.atLastPayout := by
  unfold createShares at h
  obtain ⟨t, ht, h⟩ := Option.bind_eq_some.mp h
  obtain ⟨b, hb, h⟩ := Option.bind_eq_some.mp h
  obtain ⟨hsum, hlook⟩ := addShares_spec s.balances r n b hb
  unfold cadd at ht
  by_cases hc : s.totalSupply + n < uintBound
  · simp only [hc, if_pos] at ht
    obtain rfl : s.totalSupply + n = t := Option.some.inj ht
    obtain rfl : _ = s2 := Option.some.inj h
    exact ⟨rfl, hsum, hlook, rfl, rfl, rfl⟩
  · simp [hc] at ht

/-- A successful `annihilateShares` decreases the total supply, the
ledger sum and the recipient balance by the destroyed amount, leaving
the other state fields unchanged. -/
theorem annihilateShares_spec (s : VaultState) (r n : Nat) (s2 : VaultState)
    (h : annihilateShares s r n = some s2) :
    s2.totalSupply + n = s.totalSupply ∧ sumBal s2.balances + n = sumBal s.balances ∧
    lookupBal s2.balances r + n = lookupBal s.balances r ∧
    s2.owner = s.owner ∧ s2.baseUnitsPerShare = s.baseUnitsPerShare ∧
    s2.atLastPayout = s.atLastPayout := by
  unfold annihilateShares at h
  obtain ⟨t, ht, h⟩ := Option.bind_eq_some.mp h
  obtain ⟨b, hb, h⟩ := Option.bind_eq_some.mp h
  obtain ⟨hsum, hlook⟩ := subShares_spec s.balances r n b hb
  unfold csub at ht
  by_cases hc : n ≤ s.totalSupply
  · simp only [hc, if_pos] at ht
    obtain rfl : s.totalSupply - n = t := Option.some.inj ht
    obtain rfl : _ = s2 := Option.some.inj h
    refine ⟨?_, hsum, hlook, rfl, rfl, rfl⟩
    show s.totalSupply - n + n = s.totalSupply
    omega
  · simp [hc] at ht

/-- Every external call recorded by `sliceLoop` carries the ledger and
supply it was given — the post-burn share accounting state. -/
theorem sliceLoop_mem (caller pts n : Nat) (led : Ledger) (sup : Nat)
    (assets : List AssetInfo) (calls : List ExtCall) (c : ExtCall)
    (h : sliceLoop caller pts n led sup assets = some calls) (hc : c ∈ calls) :
    c.ledgerAtCall = led ∧ c.supplyAtCall = sup := by
  induction assets generalizing calls with
  | nil =>
      unfold sliceLoop at h
      obtain rfl : ([] : List ExtCall) = calls := Option.some.inj h
      simp at hc
  | cons a rest ih =>
      unfold sliceLoop at h
      by_cases hz : a.vaultBalance = 0
      · simp only [hz, if_pos] at h
        exact ih calls h hc
      · simp only [hz, if_neg, not_false_iff] at h
        obtain ⟨x, hx, h⟩ := Option.bind_eq_some.mp h
        obtain ⟨amt, hamt, h⟩ := Option.bind_eq_some.mp h
        obtain ⟨cs, hcs, h⟩ := Option.bind_eq_some.mp h
        obtain rfl : _ = calls := Option.some.inj h
        rcases List.mem_cons.mp hc with rfl | hmem
        · exact ⟨rfl, rfl⟩
        · exact ih cs hcs hmem

/-! ## Concrete instances used by counterexamples and witnesses -/

/-- A vault environment with one universe asset (the reference asset
itself, address 1, 1000 base units held, 2 decimals) and a rewards
module that charges nothing. -/
def envA : VaultEnv :=
  { now := 50
    assets := [⟨1, 1000, 0, 2, 0, 1⟩]
    referenceAsset := 1
    calculateManagementReward := fun _ _ => 0
    calculatePerformanceReward := fun _ _ => 0
    isSubscriberPermitted := true
    isSubscribePermitted := true
    isRedeemPermitted := true }

/-- A vault state with a single holder (address 5) owning all 10 shares. -/
def stA : VaultState :=
  { owner := 7
    balances := [(5, 10)]
    totalSupply := 10
    baseUnitsPerShare := 100
    subscriptionFee := 0
    atLastPayout := ⟨0, 0, 0, 0, 0, 100, 0, 0⟩ }

/-- The vault state just after construction: no shares outstanding. -/
def stZero : VaultState :=
  { owner := 7
    balances := []
    totalSupply := 0
    baseUnitsPerShare := 100
    subscriptionFee := 0
    atLastPayout := ⟨0, 0, 0, 0, 0, 100, 0, 0⟩ }

/-- Like `envA` but 100 time units after the last payout, with a
management reward of `timeDifference * gav / 10000` (a 1-basis-point
per-time-unit fee, monotone in both arguments). -/
def envB : VaultEnv :=
  { now := 100
    assets := [⟨1, 1000, 0, 2, 0, 1⟩]
    referenceAsset := 1
    calculateManagementReward := fun t g => t * g / 10000
    calculatePerformanceReward := fun _ _ => 0
    isSubscriberPermitted := true
    isSubscribePermitted := true
    isRedeemPermitted := true }

/-- A vault state with 1000 shares, all held by address 5. -/
def stB : VaultState :=
  { owner := 7
    balances := [(5, 1000)]
    totalSupply := 1000
    baseUnitsPerShare := 100
    subscriptionFee := 0
    atLastPayout := ⟨0, 0, 0, 0, 0, 100, 0, 0⟩ }

/-- A vault environment whose rewards module charges a constant
management reward of 5 and a performance reward of
`sharePriceDifference * totalSupply / 5` (20 percent of the gain). The
single universe asset is the reference asset with 101 base units held
and 0 decimals, so the gross asset value is 101. -/
def envC : VaultEnv :=
  { now := 10
    assets := [⟨1, 101, 0, 0, 0, 1⟩]
    referenceAsset := 1
    calculateManagementReward := fun _ _ => 5
    calculatePerformanceReward := fun d ts => d * ts / 5
    isSubscriberPermitted := true
    isSubscribePermitted := true
    isRedeemPermitted := true }

/-- A vault state with 100 shares, high-water-mark share price 100. -/
def stC : VaultState :=
  { owner := 7
    balances := [(5, 100)]
    totalSupply := 100
    baseUnitsPerShare := 100
    subscriptionFee := 0
    atLastPayout := ⟨0, 0, 0, 0, 0, 100, 0, 0⟩ }

/-- A price environment where only asset 2 is a supported primitive and
nothing is a supported derivative. -/
def priceEnvA : PriceEnv :=
  { primSupported := fun a => a == 2
    derivSupported := fun _ => false
    getCanonicalRate := fun _ _ => (0, false, 0)
    getLiveRate := fun _ _ => (0, false)
    getRatesToUnderlyings := fun _ => ([], [])
    decimals := fun _ => 18 }

/-- A price environment with primitives 1 and 2 (canonical rate of
asset 1 in asset 2: 2e18, valid) and one derivative, asset 9, whose
single underlying is asset 1 at a unit rate of 1e18. All tokens have
18 decimals. -/
def priceEnvB : PriceEnv :=
  { primSupported := fun a => a == 1 || a == 2
    derivSupported := fun a => a == 9
    getCanonicalRate := fun b q =>
      if b == 1 && q == 2 then (2 * 10 ^ 18, true, 0) else (0, false, 0)
    getLiveRate := fun _ _ => (0, false)
    getRatesToUnderlyings := fun a => if a == 9 then ([1], [10 ^ 18]) else ([], [])
    decimals := fun _ => 18 }

/-! ## C1: ordering of share burns and outbound transfers -/

/-- Claim C1 counterexample: in `Vault.redeem` the outbound reference
asset transfer is made BEFORE `annihilateShares`, so the (single)
external transfer call observes the caller's share balance still at its
pre-redeem value 10, not the decremented value 10 - 4: the claimed
burn-before-transfer ordering is false for the single-asset redeem
path. -/
theorem redeem_transfer_precedes_burn_cex :
    redeem envA stA 5 4 0 =
      some (⟨7, [(5, 6)], 6, 100, 0, ⟨0, 0, 0, 0, 0, 100, 0, 0⟩⟩,
            [⟨1, 5, 400, [(5, 10)], 10⟩]) ∧
    lookupBal [(5, 10)] 5 ≠ lookupBal stA.balances 5 - 4 := by
  constructor
  · decide
  · decide

/-- Claim C1 amended: the burn-before-transfer ordering holds for the
slice redeem path (`redeemUsingSlice` via `separateSlice`), where every
outbound transfer observes the post-burn ledger; in the single-asset
`Vault.redeem`, however, the outbound transfer precedes the burn and
observes the caller's undecremented balance and the undecremented total
supply. -/
theorem redeem_paths_burn_transfer_order :
    (∀ (env : VaultEnv) (s : VaultState) (caller numShares : Nat)
        (s2 : VaultState) (calls : List ExtCall),
        redeemUsingSlice env s caller numShares = some (s2, calls) →
        ∀ c ∈ calls, c.ledgerAtCall = s2.balances ∧
          lookupBal c.ledgerAtCall caller + numShares = lookupBal s.balances caller ∧
          c.supplyAtCall + numShares = s.totalSupply) ∧
    (∀ (env : VaultEnv) (s : VaultState) (caller numShares requestedValue : Nat)
        (s2 : VaultState) (calls : List ExtCall),
        redeem env s caller numShares requestedValue = some (s2, calls) →
        ∀ c ∈ calls, c.ledgerAtCall = s.balances ∧ c.supplyAtCall = s.totalSupply) := by
  constructor
  · intro env s caller numShares s2 calls h c hc
    unfold redeemUsingSlice at h
    by_cases hpre : numShares ≤ lookupBal s.balances caller
    · simp only [hpre, if_pos] at h
      unfold separateSlice at h
      obtain ⟨pts, hpts, h⟩ := Option.bind_eq_some.mp h
      by_cases hz : 0 < pts
      · simp only [hz, if_pos] at h
        obtain ⟨sb, hsb, h⟩ := Option.bind_eq_some.mp h
        obtain ⟨cs, hcs, h⟩ := Option.bind_eq_some.mp h
        obtain ⟨hs2, hcalls⟩ : sb = s2 ∧ cs = calls := by
          have := Option.some.inj h
          exact ⟨congrArg Prod.fst this, congrArg Prod.snd this⟩
        subst hs2; subst hcalls
        obtain ⟨hled, hsup⟩ := sliceLoop_mem caller pts numShares sb.balances
          sb.totalSupply env.assets cs c hcs hc
        obtain ⟨hts, _, hlook, _, _, _⟩ :=
          annihilateShares_spec s caller numShares sb hsb
        exact ⟨hled, by rw [hled]; omega, by omega⟩
      · simp [hz] at h
    · simp [hpre] at h
  · intro env s caller numShares requestedValue s2 calls h c hc
    unfold redeem at h
    by_cases h1 : 0 < numShares
    · simp only [h1, if_pos] at h
      by_cases h2 : env.isRedeemPermitted
      · simp only [h2, if_pos] at h
        obtain ⟨av, hav, h⟩ := Option.bind_eq_some.mp h
        by_cases h3 : requestedValue ≤ av
        · simp only [h3, if_pos] at h
          obtain ⟨sb, hsb, h⟩ := Option.bind_eq_some.mp h
          obtain ⟨_, hcalls⟩ : sb = s2 ∧ _ = calls := by
            have := Option.some.inj h
            exact ⟨congrArg Prod.fst this, congrArg Prod.snd this⟩
          subst hcalls
          rcases List.mem_cons.mp hc with rfl | hmem
          · exact ⟨rfl, rfl⟩
          · simp at hmem
        · simp [h3] at h
      · simp [h2] at h
    · simp [h1] at h

/-- Witness for the amended C1 theorem at concrete inputs: a slice
redeem of 4 of 10 shares whose single outbound transfer observes the
burned ledger, and a direct redeem whose outbound transfer observes the
unburned ledger. -/
theorem redeem_paths_burn_transfer_order_witness :
    (∀ c ∈ [(⟨1, 5, 400, [(5, 6)], 6⟩ : ExtCall)],
        c.ledgerAtCall =
          (⟨7, [(5, 6)], 6, 100, 0, ⟨0, 0, 0, 0, 0, 100, 0, 0⟩⟩ : VaultState).balances ∧
        lookupBal c.ledgerAtCall 5 + 4 = lookupBal stA.balances 5 ∧
        c.supplyAtCall + 4 = stA.totalSupply) ∧
    (∀ c ∈ [(⟨1, 5, 400, [(5, 10)], 10⟩ : ExtCall)],
        c.ledgerAtCall = stA.balances ∧ c.supplyAtCall = stA.totalSupply) := by
  constructor
  · exact redeem_paths_burn_transfer_order.1 envA stA 5 4
      ⟨7, [(5, 6)], 6, 100, 0, ⟨0, 0, 0, 0, 0, 100, 0, 0⟩⟩
      [⟨1, 5, 400, [(5, 6)], 6⟩] (by decide)
  · exact redeem_paths_burn_transfer_order.2 envA stA 5 4 0
      ⟨7, [(5, 6)], 6, 100, 0, ⟨0, 0, 0, 0, 0, 100, 0, 0⟩⟩
      [⟨1, 5, 400, [(5, 10)], 10⟩] (by decide)

/-! ## Checked arithmetic inversion lemmas -/

/-- Inversion for `cadd`. -/
theorem cadd_eq_some (a b x : Nat) (h : cadd a b = some x) : x = a + b := by
  unfold cadd at h
  by_cases hb : a + b < uintBound
  · simp [hb] at h; omega
  · simp [hb] at h

/-- Inversion for `cmul`. -/
theorem cmul_eq_some (a b x : Nat) (h : cmul a b = some x) : x = a * b := by
  unfold cmul at h
  by_cases hb : a * b < uintBound
  · simp [hb] at h; omega
  · simp [hb] at h

/-- Inversion for `csub`. -/
theorem csub_eq_some (a b x : Nat) (h : csub a b = some x) : b ≤ a ∧ x = a - b := by
  unfold csub at h
  by_cases hb : b ≤ a
  · simp [hb] at h; omega
  · simp [hb] at h

/-- Inversion for `cdiv`. -/
theorem cdiv_eq_some (a b x : Nat) (h : cdiv a b = some x) : b ≠ 0 ∧ x = a / b := by
  unfold cdiv at h
  by_cases hb : b = 0
  · simp [hb] at h
  · simp [hb] at h; omega

/-- Full characterization of a successful `convertUnclaimedRewards`:
the owner's balance is written to its old value plus
`totalSupply * unclaimedRewards / gav`, the total supply and the other
scalar fields are left unchanged, and the `atLastPayout` snapshot is
overwritten with the freshly computed figures, the unchanged total
supply, and the current time. -/
theorem convertUnclaimedRewards_spec (env : VaultEnv) (s : VaultState)
    (caller : Nat) (s2 : VaultState)
    (h : convertUnclaimedRewards env s caller = some s2) :
    caller = s.owner ∧
    ∃ g m p u nav sp, performCalculations env s = some (g, m, p, u, nav, sp) ∧
      0 < g ∧
      s2.balances = setBal s.balances s.owner
        (lookupBal s.balances s.owner + s.totalSupply * u / g) ∧
      s2.totalSupply = s.totalSupply ∧ s2.owner = s.owner ∧
      s2.baseUnitsPerShare = s.baseUnitsPerShare ∧
      s2.atLastPayout = ⟨g, m, p, u, nav, sp, s.totalSupply, env.now⟩ := by
  unfold convertUnclaimedRewards at h
  by_cases hown : caller = s.owner
  · simp only [hown, if_pos] at h
    obtain ⟨r, hr, h⟩ := Option.bind_eq_some.mp h
    by_cases hg : 0 < r.1
    · simp only [hg, if_pos] at h
      obtain ⟨x, hx, h⟩ := Option.bind_eq_some.mp h
      obtain ⟨nsh, hnsh, h⟩ := Option.bind_eq_some.mp h
      obtain ⟨b, hb, h⟩ := Option.bind_eq_some.mp h
      obtain ⟨g, m, p, u, nav, sp⟩ := r
      obtain rfl : _ = s2 := Option.some.inj h
      have hxv := cmul_eq_some _ _ _ hx
      obtain ⟨-, hdv⟩ := cdiv_eq_some _ _ _ hnsh
      unfold addShares at hb
      obtain ⟨bv, hbv, hb2⟩ := Option.map_eq_some'.mp hb
      have hbvv := cadd_eq_some _ _ _ hbv
      refine ⟨hown, g, m, p, u, nav, sp, hr, hg, ?_, rfl, rfl, rfl, rfl⟩
      show b = _
      rw [← hb2, hbvv, hdv, hxv]
    · simp [hg] at h
  · simp [hown] at h

/-! ## C2: conservation of the share ledger sum -/

/-- Claim C2 counterexample: starting from a state satisfying
conservation (ledger sum 1000 = total supply 1000), a successful
`convertUnclaimedRewards` (with gross asset value 1000 and unclaimed
rewards 10) adds 10 fee shares to the owner's balance without touching
`totalSupply`, so afterwards the sum of all holders' balances is 1010
while `totalSupply` is still 1000. -/
theorem convert_rewards_breaks_conservation_cex :
    sumBal stB.balances = stB.totalSupply ∧
    convertUnclaimedRewards envB stB 7 =
      some ⟨7, [(5, 1000), (7, 10)], 1000, 100, 0,
            ⟨1000, 10, 0, 10, 990, 99, 1000, 100⟩⟩ ∧
    sumBal [(5, 1000), (7, 10)] ≠
      (1000 : Nat) := by
  refine ⟨by decide, by decide, by decide⟩

/-- Claim C2 amended: the conservation invariant
`sum(balances) = totalSupply` is preserved by `subscribe`, `redeem` and
`redeemUsingSlice`; `convertUnclaimedRewards`, however, adds the
computed fee shares `totalSupply * unclaimedRewards / gav` to the
owner's balance while leaving `totalSupply` unchanged, so conservation
is broken whenever that quantity is non-zero. -/
theorem shares_conservation_amended :
    (∀ (env : VaultEnv) (s : VaultState) (caller numShares offeredValue : Nat)
        (s2 : VaultState),
        subscribe env s caller numShares offeredValue = some s2 →
        sumBal s.balances = s.totalSupply → sumBal s2.balances = s2.totalSupply) ∧
    (∀ (env : VaultEnv) (s : VaultState) (caller numShares requestedValue : Nat)
        (s2 : VaultState) (calls : List ExtCall),
        redeem env s caller numShares requestedValue = some (s2, calls) →
        sumBal s.balances = s.totalSupply → sumBal s2.balances = s2.totalSupply) ∧
    (∀ (env : VaultEnv) (s : VaultState) (caller numShares : Nat)
        (s2 : VaultState) (calls : List ExtCall),
        redeemUsingSlice env s caller numShares = some (s2, calls) →
        sumBal s.balances = s.totalSupply → sumBal s2.balances = s2.totalSupply) ∧
    (∀ (env : VaultEnv) (s : VaultState) (caller : Nat) (s2 : VaultState),
        convertUnclaimedRewards env s caller = some s2 →
        s2.totalSupply = s.totalSupply ∧
        ∃ g m p u nav sp, performCalculations env s = some (g, m, p, u, nav, sp) ∧
          sumBal s2.balances = sumBal s.balances + s.totalSupply * u / g) := by
  refine ⟨?_, ?_, ?_, ?_⟩
  · intro env s caller numShares offeredValue s2 h hc
    unfold subscribe at h
    by_cases h1 : env.isSubscriberPermitted
    · simp only [h1, if_pos] at h
      by_cases h2 : env.isSubscribePermitted
      · simp only [h2, if_pos] at h
        by_cases h3 : numShares = 0
        · simp only [h3, if_pos] at h
          simp [subscribeUsingSlice] at h
        · simp only [h3, if_neg, not_false_iff] at h
          obtain ⟨av, hav, h⟩ := Option.bind_eq_some.mp h
          by_cases h4 : av ≤ offeredValue
          · simp only [h4, if_pos] at h
            obtain ⟨hts, hsum, -, -, -, -⟩ := createShares_spec s caller numShares s2 h
            omega
          · simp [h4] at h
      · simp [h2] at h
    · simp [h1] at h
  · intro env s caller numShares requestedValue s2 calls h hc
    unfold redeem at h
    by_cases h1 : 0 < numShares
    · simp only [h1, if_pos] at h
      by_cases h2 : env.isRedeemPermitted
      · simp only [h2, if_pos] at h
        obtain ⟨av, hav, h⟩ := Option.bind_eq_some.mp h
        by_cases h3 : requestedValue ≤ av
        · simp only [h3, if_pos] at h
          obtain ⟨sb, hsb, h⟩ := Option.bind_eq_some.mp h
          obtain hs2 : sb = s2 := congrArg Prod.fst (Option.some.inj h)
          subst hs2
          obtain ⟨hts, hsum, -, -, -, -⟩ :=
            annihilateShares_spec s caller numShares sb hsb
          omega
        · simp [h3] at h
      · simp [h2] at h
    · simp [h1] at h
  · intro env s caller numShares s2 calls h hc
    unfold redeemUsingSlice at h
    by_cases hpre : numShares ≤ lookupBal s.balances caller
    · simp only [hpre, if_pos] at h
      unfold separateSlice at h
      obtain ⟨pts, hpts, h⟩ := Option.bind_eq_some.mp h
      by_cases hz : 0 < pts
      · simp only [hz, if_pos] at h
        obtain ⟨sb, hsb, h⟩ := Option.bind_eq_some.mp h
        obtain ⟨cs, hcs, h⟩ := Option.bind_eq_some.mp h
        obtain hs2 : sb = s2 := congrArg Prod.fst (Option.some.inj h)
        subst hs2
        obtain ⟨hts, hsum, -, -, -, -⟩ :=
          annihilateShares_spec s caller numShares sb hsb
        omega
      · simp [hz] at h
    · simp [hpre] at h
  · intro env s caller s2 h
    obtain ⟨-, g, m, p, u, nav, sp, hperf, -, hbal, hts, -, -, -⟩ :=
      convertUnclaimedRewards_spec env s caller s2 h
    refine ⟨hts, g, m, p, u, nav, sp, hperf, ?_⟩
    rw [hbal]
    have := sumBal_setBal s.balances s.owner
      (lookupBal s.balances s.owner + s.totalSupply * u / g)
    omega

/-- Witness for the amended C2 theorem at concrete inputs: a
subscription, a redeem, a slice redeem and a fee conversion, each
applied to a concrete state satisfying conservation. -/
theorem shares_conservation_amended_witness :
    sumBal (⟨7, [(5, 14)], 14, 100, 0, ⟨0, 0, 0, 0, 0, 100, 0, 0⟩⟩ : VaultState).balances =
      (⟨7, [(5, 14)], 14, 100, 0, ⟨0, 0, 0, 0, 0, 100, 0, 0⟩⟩ : VaultState).totalSupply ∧
    sumBal (⟨7, [(5, 6)], 6, 100, 0, ⟨0, 0, 0, 0, 0, 100, 0, 0⟩⟩ : VaultState).balances =
      (⟨7, [(5, 6)], 6, 100, 0, ⟨0, 0, 0, 0, 0, 100, 0, 0⟩⟩ : VaultState).totalSupply ∧
    (⟨7, [(5, 1000), (7, 10)], 1000, 100, 0,
        ⟨1000, 10, 0, 10, 990, 99, 1000, 100⟩⟩ : VaultState).totalSupply =
      stB.totalSupply ∧
    ∃ g m p u nav sp, performCalculations envB stB = some (g, m, p, u, nav, sp) ∧
      sumBal (⟨7, [(5, 1000), (7, 10)], 1000, 100, 0,
        ⟨1000, 10, 0, 10, 990, 99, 1000, 100⟩⟩ : VaultState).balances =
        sumBal stB.balances + stB.totalSupply * u / g := by
  refine ⟨?_, ?_, ?_⟩
  · exact shares_conservation_amended.1 envA stA 5 4 400
      ⟨7, [(5, 14)], 14, 100, 0, ⟨0, 0, 0, 0, 0, 100, 0, 0⟩⟩ (by decide) (by decide)
  · exact shares_conservation_amended.2.1 envA stA 5 4 0
      ⟨7, [(5, 6)], 6, 100, 0, ⟨0, 0, 0, 0, 0, 100, 0, 0⟩⟩
      [⟨1, 5, 400, [(5, 10)], 10⟩] (by decide) (by decide)
  · exact shares_conservation_amended.2.2.2 envB stB 7
      ⟨7, [(5, 1000), (7, 10)], 1000, 100, 0,
        ⟨1000, 10, 0, 10, 990, 99, 1000, 100⟩⟩ (by decide)

/-! ## C4: fee settlement mint and snapshot overwrite -/

/-- Claim C4 counterexample: at gross asset value 1000 and unclaimed
rewards 10, `convertUnclaimedRewards` computes
`totalSupply * unclaimedRewards / gav = 10` fee shares, which is
non-zero, yet the post-state total supply is NOT the pre-state total
supply increased by 10 — only the owner's balance grew: the claimed
mint (balance AND totalSupply increase) is false. -/
theorem convert_rewards_supply_not_minted_cex :
    performCalculations envB stB = some (1000, 10, 0, 10, 990, 99) ∧
    stB.totalSupply * 10 / 1000 = 10 ∧ (10 : Nat) ≠ 0 ∧
    convertUnclaimedRewards envB stB 7 =
      some ⟨7, [(5, 1000), (7, 10)], 1000, 100, 0,
            ⟨1000, 10, 0, 10, 990, 99, 1000, 100⟩⟩ ∧
    (⟨7, [(5, 1000), (7, 10)], 1000, 100, 0,
       ⟨1000, 10, 0, 10, 990, 99, 1000, 100⟩⟩ : VaultState).totalSupply ≠
      stB.totalSupply + 10 := by
  refine ⟨by decide, by decide, by decide, by decide, by decide⟩

/-- Claim C4 amended: a successful `convertUnclaimedRewards` adds
exactly `floor(totalSupply * unclaimedRewards / gav)` fee shares to the
manager's balance but leaves `totalSupply` unchanged (it is an
`addShares`, not a mint), and overwrites the `atLastPayout` snapshot
wholesale with the freshly computed gav, rewards, nav and share price,
the (unchanged) total supply, and the current timestamp. -/
theorem convert_rewards_amended :
    ∀ (env : VaultEnv) (s : VaultState) (caller : Nat) (s2 : VaultState)
      (g m p u nav sp : Nat),
      performCalculations env s = some (g, m, p, u, nav, sp) →
      convertUnclaimedRewards env s caller = some s2 →
      lookupBal s2.balances s.owner =
        lookupBal s.balances s.owner + s.totalSupply * u / g ∧
      s2.totalSupply = s.totalSupply ∧
      s2.atLastPayout = ⟨g, m, p, u, nav, sp, s.totalSupply, env.now⟩ := by
  intro env s caller s2 g m p u nav sp hperf h
  obtain ⟨-, g2, m2, p2, u2, nav2, sp2, hperf2, -, hbal, hts, -, -, hsnap⟩ :=
    convertUnclaimedRewards_spec env s caller s2 h
  have heq := Option.some.inj (hperf.symm.trans hperf2)
  simp only [Prod.mk.injEq] at heq
  obtain ⟨rfl, rfl, rfl, rfl, rfl, rfl⟩ := heq
  refine ⟨?_, hts, hsnap⟩
  rw [hbal, lookupBal_setBal_self]

/-- Witness for the amended C4 theorem at a concrete fee settlement
with 10 fee shares. -/
theorem convert_rewards_amended_witness :
    lookupBal (⟨7, [(5, 1000), (7, 10)], 1000, 100, 0,
      ⟨1000, 10, 0, 10, 990, 99, 1000, 100⟩⟩ : VaultState).balances stB.owner =
      lookupBal stB.balances stB.owner + stB.totalSupply * 10 / 1000 ∧
    (⟨7, [(5, 1000), (7, 10)], 1000, 100, 0,
      ⟨1000, 10, 0, 10, 990, 99, 1000, 100⟩⟩ : VaultState).totalSupply =
      stB.totalSupply ∧
    (⟨7, [(5, 1000), (7, 10)], 1000, 100, 0,
      ⟨1000, 10, 0, 10, 990, 99, 1000, 100⟩⟩ : VaultState).atLastPayout =
      ⟨1000, 10, 0, 10, 990, 99, stB.totalSupply, envB.now⟩ :=
  convert_rewards_amended envB stB 7
    ⟨7, [(5, 1000), (7, 10)], 1000, 100, 0, ⟨1000, 10, 0, 10, 990, 99, 1000, 100⟩⟩
    1000 10 0 10 990 99 (by decide) (by decide)

/-! ## C3: performance reward trigger condition -/

/-- Claim C3 counterexample: with a constant management reward of 5,
gross asset value 101, high-water-mark share price 100 and total supply
100, the code pays a performance reward of 20 (the current share price
computed FROM GAV is 101 > 100), although the share price implied by
`gav - managementReward = 96` does not exceed the high-water-mark — so
the claim that the reward is zero unless the (gav − managementFee)
share price exceeds the mark is false. -/
theorem perf_reward_gav_not_net_cex :
    calcUnclaimedRewards envC stC 101 = some (5, 20, 25) ∧
    calcValuePerShare stC (101 - 5) = some 96 ∧
    ¬ stC.atLastPayout.sharePrice < 96 ∧ (20 : Nat) ≠ 0 := by
  refine ⟨by decide, by decide, by decide, by decide⟩

/-- Claim C3 amended: the performance reward is 0 unless
`totalSupply > 0` and the share price implied by `gav` ITSELF (not
`gav - managementReward`) exceeds the high-water-mark share price of
the last payout; when it exceeds, the reward is the rewards module's
`calculatePerformanceReward` applied to the share price excess and the
total supply. -/
theorem perf_reward_gav_hwm :
    ∀ (env : VaultEnv) (s : VaultState) (gav m p u : Nat),
      calcUnclaimedRewards env s gav = some (m, p, u) →
      (s.totalSupply = 0 → p = 0) ∧
      (∀ csp, calcValuePerShare s gav = some csp →
        csp ≤ s.atLastPayout.sharePrice → p = 0) ∧
      (∀ csp, calcValuePerShare s gav = some csp →
        s.atLastPayout.sharePrice < csp →
        p = env.calculatePerformanceReward
          (csp - s.atLastPayout.sharePrice) s.totalSupply) := by
  intro env s gav m p u h
  unfold calcUnclaimedRewards at h
  obtain ⟨td, htd, h⟩ := Option.bind_eq_some.mp h
  obtain ⟨pr, hpr, h⟩ := Option.bind_eq_some.mp h
  obtain ⟨uc, huc, h⟩ := Option.bind_eq_some.mp h
  have heq := Option.some.inj h
  simp only [Prod.mk.injEq] at heq
  obtain ⟨rfl, rfl, rfl⟩ := heq
  unfold calcPerformanceReward at hpr
  by_cases hts : s.totalSupply ≠ 0
  · rw [if_pos hts] at hpr
    obtain ⟨csp, hcsp, hpr⟩ := Option.bind_eq_some.mp hpr
    refine ⟨fun h0 => absurd h0 hts, ?_, ?_⟩
    · intro csp2 hcsp2 hle
      obtain rfl : csp = csp2 := Option.some.inj (hcsp.symm.trans hcsp2)
      have hnlt : ¬ s.atLastPayout.sharePrice < csp := by omega
      simp only [hnlt, if_neg, not_false_iff] at hpr
      exact (Option.some.inj hpr).symm
    · intro csp2 hcsp2 hlt
      obtain rfl : csp = csp2 := Option.some.inj (hcsp.symm.trans hcsp2)
      simp only [hlt, if_pos] at hpr
      exact (Option.some.inj hpr).symm
  · rw [if_neg hts] at hpr
    obtain rfl : 0 = pr := Option.some.inj hpr
    refine ⟨fun _ => rfl, ?_, ?_⟩
    · intro csp2 hcsp2 _
      rfl
    · intro csp2 hcsp2 _
      unfold calcValuePerShare at hcsp2
      simp only [ne_eq, not_not] at hts
      simp [hts] at hcsp2

/-- Witness for the amended C3 theorem: at gross asset value 101 the
current share price 101 exceeds the high-water-mark 100, and the paid
performance reward 20 is exactly the rewards module's proportional
reward on the excess. -/
theorem perf_reward_gav_hwm_witness :
    calcValuePerShare stC 101 = some 101 ∧
    (20 : Nat) = envC.calculatePerformanceReward
      (101 - stC.atLastPayout.sharePrice) stC.totalSupply := by
  refine ⟨by decide, ?_⟩
  exact (perf_reward_gav_hwm envC stC 101 5 20 25 (by decide)).2.2 101
    (by decide) (by decide)

/-! ## C5: the share price divides NAV, not GAV -/

/-- Claim C5 counterexample: with gross asset value 1000 and unclaimed
rewards 10, the computed share price is 99 = nav * base / supply, not
`GAV / totalSupply` scaled (which would be 100), and a redemption of 10
shares is priced at 9, not the 10 the GAV-based price would give. -/
theorem share_price_gav_vs_nav_cex :
    performCalculations envB stB = some (1000, 10, 0, 10, 990, 99) ∧
    (99 : Nat) ≠ 1000 * stB.baseUnitsPerShare / stB.totalSupply ∧
    priceForNumShares envB stB 10 = some 9 ∧
    (9 : Nat) ≠ 10 * (1000 * stB.baseUnitsPerShare / stB.totalSupply) /
      stB.baseUnitsPerShare := by
  refine ⟨by decide, by decide, by decide, by decide⟩

/-- Claim C5 amended: for positive total supply the computed share
price equals NAV (= GAV minus unclaimed rewards) divided by the total
supply and scaled by `baseUnitsPerShare`; subscriptions and redemptions
are priced with `numShares * sharePrice / baseUnitsPerShare` using that
NAV-based share price. -/
theorem share_price_nav_amended :
    (∀ (env : VaultEnv) (s : VaultState) (g m p u nav sp : Nat),
        performCalculations env s = some (g, m, p, u, nav, sp) →
        0 < s.totalSupply →
        nav + u = g ∧ sp = nav * s.baseUnitsPerShare / s.totalSupply) ∧
    (∀ (env : VaultEnv) (s : VaultState) (k pr : Nat),
        priceForNumShares env s k = some pr →
        ∃ g m p u nav sp, performCalculations env s = some (g, m, p, u, nav, sp) ∧
          pr = k * sp / s.baseUnitsPerShare) := by
  constructor
  · intro env s g m p u nav sp hperf hts
    unfold performCalculations at hperf
    obtain ⟨gv, hgv, h⟩ := Option.bind_eq_some.mp hperf
    obtain ⟨r, hr, h⟩ := Option.bind_eq_some.mp h
    obtain ⟨nv, hnv, h⟩ := Option.bind_eq_some.mp h
    obtain ⟨spv, hspv, h⟩ := Option.bind_eq_some.mp h
    have heq := Option.some.inj h
    simp only [Prod.mk.injEq] at heq
    obtain ⟨rfl, rfl, rfl, rfl, rfl, rfl⟩ := heq
    obtain ⟨hle, rfl⟩ := csub_eq_some _ _ _ hnv
    unfold calcSharePriceOrDefault at hspv
    rw [if_pos hts] at hspv
    unfold calcValuePerShare at hspv
    rw [if_pos hts] at hspv
    obtain ⟨x, hx, hspv⟩ := Option.bind_eq_some.mp hspv
    obtain rfl := cmul_eq_some _ _ _ hx
    obtain ⟨-, rfl⟩ := cdiv_eq_some _ _ _ hspv
    exact ⟨by omega, rfl⟩
  · intro env s k pr h
    unfold priceForNumShares at h
    obtain ⟨r, hr, h⟩ := Option.bind_eq_some.mp h
    obtain ⟨x, hx, h⟩ := Option.bind_eq_some.mp h
    obtain ⟨g, m, p, u, nav, sp⟩ := r
    obtain rfl := cmul_eq_some _ _ _ hx
    obtain ⟨-, rfl⟩ := cdiv_eq_some _ _ _ h
    exact ⟨g, m, p, u, nav, sp, hr, rfl⟩

/-- Witness for the amended C5 theorem: nav 990 + rewards 10 = gav
1000, share price 99 = 990 * 100 / 1000, and a 10-share redemption
priced at 9 = 10 * 99 / 100. -/
theorem share_price_nav_amended_witness :
    ((990 : Nat) + 10 = 1000 ∧
      (99 : Nat) = 990 * stB.baseUnitsPerShare / stB.totalSupply) ∧
    ∃ g m p u nav sp, performCalculations envB stB = some (g, m, p, u, nav, sp) ∧
      (9 : Nat) = 10 * sp / stB.baseUnitsPerShare := by
  constructor
  · exact share_price_nav_amended.1 envB stB 1000 10 0 10 990 99
      (by decide) (by decide)
  · exact share_price_nav_amended.2 envB stB 10 9 (by decide)

/-! ## C6: zero total supply and division safety -/

/-- Claim C6 confirmed: when the total supply is zero the computed
share price is exactly `baseUnitsPerShare`; `calcValuePerShare` only
ever succeeds under its `pre_cond` of positive total supply (so its
division is never by zero); and with zero total supply the
performance-reward path never invokes the share-price division and the
performance reward is 0. -/
theorem zero_supply_share_price :
    (∀ (env : VaultEnv) (s : VaultState) (g m p u nav sp : Nat),
        s.totalSupply = 0 →
        performCalculations env s = some (g, m, p, u, nav, sp) →
        sp = s.baseUnitsPerShare) ∧
    (∀ (s : VaultState) (v x : Nat),
        calcValuePerShare s v = some x → 0 < s.totalSupply) ∧
    (∀ (env : VaultEnv) (s : VaultState) (gav m p u : Nat),
        s.totalSupply = 0 →
        calcUnclaimedRewards env s gav = some (m, p, u) → p = 0) := by
  refine ⟨?_, ?_, ?_⟩
  · intro env s g m p u nav sp hts hperf
    unfold performCalculations at hperf
    obtain ⟨gv, hgv, h⟩ := Option.bind_eq_some.mp hperf
    obtain ⟨r, hr, h⟩ := Option.bind_eq_some.mp h
    obtain ⟨nv, hnv, h⟩ := Option.bind_eq_some.mp h
    obtain ⟨spv, hspv, h⟩ := Option.bind_eq_some.mp h
    have heq := Option.some.inj h
    simp only [Prod.mk.injEq] at heq
    obtain ⟨rfl, rfl, rfl, rfl, rfl, rfl⟩ := heq
    have hnot : ¬ 0 < s.totalSupply := by omega
    unfold calcSharePriceOrDefault at hspv
    rw [if_neg hnot] at hspv
    exact (Option.some.inj hspv).symm
  · intro s v x h
    unfold calcValuePerShare at h
    by_cases hts : 0 < s.totalSupply
    · exact hts
    · rw [if_neg hts] at h
      exact absurd h (Option.noConfusion)
  · intro env s gav m p u hts h
    unfold calcUnclaimedRewards at h
    obtain ⟨td, htd, h⟩ := Option.bind_eq_some.mp h
    obtain ⟨pr, hpr, h⟩ := Option.bind_eq_some.mp h
    obtain ⟨uc, huc, h⟩ := Option.bind_eq_some.mp h
    have heq := Option.some.inj h
    simp only [Prod.mk.injEq] at heq
    obtain ⟨rfl, rfl, rfl⟩ := heq
    unfold calcPerformanceReward at hpr
    have hne : ¬ s.totalSupply ≠ 0 := by omega
    rw [if_neg hne] at hpr
    exact (Option.some.inj hpr).symm

/-- Witness for the C6 theorem: the freshly constructed vault (zero
supply) computes share price 100 = `baseUnitsPerShare` and a zero
performance reward, and a successful `calcValuePerShare` on a live
state implies its supply is positive. -/
theorem zero_supply_share_price_witness :
    (100 : Nat) = stZero.baseUnitsPerShare ∧
    0 < stA.totalSupply ∧ (0 : Nat) = 0 := by
  refine ⟨?_, ?_, rfl⟩
  · exact zero_supply_share_price.1 envA stZero 1000 0 0 0 1000 100
      (by decide) (by decide)
  · exact zero_supply_share_price.2.1 stA 50 500 (by decide)

/-! ## C9: unclaimed rewards sum and bound -/

/-- The unclaimed rewards total is the sum of the management and
performance rewards. -/
theorem calcUnclaimedRewards_sum (env : VaultEnv) (s : VaultState)
    (gav m p u : Nat) (h : calcUnclaimedRewards env s gav = some (m, p, u)) :
    u = m + p := by
  unfold calcUnclaimedRewards at h
  obtain ⟨td, htd, h⟩ := Option.bind_eq_some.mp h
  obtain ⟨pr, hpr, h⟩ := Option.bind_eq_some.mp h
  obtain ⟨uc, huc, h⟩ := Option.bind_eq_some.mp h
  have heq := Option.some.inj h
  simp only [Prod.mk.injEq] at heq
  obtain ⟨rfl, rfl, rfl⟩ := heq
  exact cadd_eq_some _ _ _ huc

/-- Claim C9 confirmed: `calcUnclaimedRewards` returns
`unclaimedRewards = managementReward + performanceReward`, and in any
completed `performCalculations` the unclaimed total is at most the
gross asset value — enforced by the SafeMath subtraction in `calcNav`,
which reverts the whole operation before the value is used whenever the
unclaimed total exceeds gav. -/
theorem unclaimed_rewards_sum_bound :
    (∀ (env : VaultEnv) (s : VaultState) (gav m p u : Nat),
        calcUnclaimedRewards env s gav = some (m, p, u) → u = m + p) ∧
    (∀ (env : VaultEnv) (s : VaultState) (g m p u nav sp : Nat),
        performCalculations env s = some (g, m, p, u, nav, sp) →
        u = m + p ∧ u ≤ g ∧ nav + u = g) := by
  constructor
  · exact calcUnclaimedRewards_sum
  · intro env s g m p u nav sp hperf
    unfold performCalculations at hperf
    obtain ⟨gv, hgv, h⟩ := Option.bind_eq_some.mp hperf
    obtain ⟨r, hr, h⟩ := Option.bind_eq_some.mp h
    obtain ⟨nv, hnv, h⟩ := Option.bind_eq_some.mp h
    obtain ⟨spv, hspv, h⟩ := Option.bind_eq_some.mp h
    have heq := Option.some.inj h
    simp only [Prod.mk.injEq] at heq
    obtain ⟨rfl, rfl, rfl, rfl, rfl, rfl⟩ := heq
    obtain ⟨hle, rfl⟩ := csub_eq_some _ _ _ hnv
    obtain ⟨m2, p2, u2⟩ := r
    exact ⟨calcUnclaimedRewards_sum env s gv m2 p2 u2 hr, hle, by omega⟩

/-- Witness for the C9 theorem: at gross asset value 1000 the rewards
are management 10, performance 0, total 10 = 10 + 0 ≤ 1000, with
nav 990 + 10 = 1000. -/
theorem unclaimed_rewards_sum_bound_witness :
    (10 : Nat) = 10 + 0 ∧
    ((10 : Nat) = 10 + 0 ∧ (10 : Nat) ≤ 1000 ∧ (990 : Nat) + 10 = 1000) := by
  refine ⟨?_, ?_⟩
  · exact unclaimed_rewards_sum_bound.1 envB stB 1000 10 0 10 (by decide)
  · exact unclaimed_rewards_sum_bound.2 envB stB 1000 10 0 10 990 99 (by decide)

/-! ## C7 and C10: guard behavior of the valuation entry points -/

/-- Embedding of `__calcAssetValue` on a base asset supported by neither feed
returns `(0, false)` without reverting, for both rate modes. -/
theorem calcAssetValue_unregistered (env : PriceEnv)
    (fuel primFeed derivFeed base amount quote : Nat) (useLive : Bool)
    (h1 : env.primSupported base = false) (h2 : env.derivSupported base = false) :
    calcAssetValue env (fuel + 1) primFeed derivFeed base amount quote useLive =
      some (0, false) := by
  unfold calcAssetValue
  by_cases hg : primFeed = 0 ∨ base = 0 ∨ quote = 0 ∨ amount = 0 ∨
      env.primSupported quote = false
  · rw [if_pos hg]
  · rw [if_neg hg, if_neg (by simp [h1]), if_neg (by simp [h2])]

/-- Claim C7 confirmed: for a base asset supported by neither the
primitive nor the derivative price feed, both `calcCanonicalAssetValue`
and `calcLiveAssetValue` return `(value = 0, isValid = false)` and do
not revert. -/
theorem unregistered_asset_zero_invalid :
    ∀ (env : PriceEnv) (fuel primFeed derivFeed base amount quote : Nat),
      env.primSupported base = false → env.derivSupported base = false →
      calcCanonicalAssetValue env (fuel + 1) primFeed derivFeed base amount quote =
        some (0, false) ∧
      calcLiveAssetValue env (fuel + 1) primFeed derivFeed base amount quote =
        some (0, false) := by
  intro env fuel primFeed derivFeed base amount quote h1 h2
  exact ⟨calcAssetValue_unregistered env fuel primFeed derivFeed base amount quote false h1 h2,
         calcAssetValue_unregistered env fuel primFeed derivFeed base amount quote true h1 h2⟩

/-- Witness for the C7 theorem: asset 3 is supported by neither feed of
`priceEnvA`, and both entry points value it as `(0, false)`. -/
theorem unregistered_asset_zero_invalid_witness :
    calcCanonicalAssetValue priceEnvA 1 7 0 3 5 2 = some (0, false) ∧
    calcLiveAssetValue priceEnvA 1 7 0 3 5 2 = some (0, false) :=
  unregistered_asset_zero_invalid priceEnvA 0 7 0 3 5 2 (by decide) (by decide)

/-- Claim C10 confirmed: both public valuation entry points return
`(0, false)` whenever the requested amount is zero, or the base asset,
quote asset or primitive-feed address is the zero address, or the quote
asset is not a supported primitive — regardless of the base asset
(including base = quote). -/
theorem zero_guard_zero_invalid :
    ∀ (env : PriceEnv) (fuel primFeed derivFeed base amount quote : Nat),
      (primFeed = 0 ∨ base = 0 ∨ quote = 0 ∨ amount = 0 ∨
        env.primSupported quote = false) →
      calcCanonicalAssetValue env (fuel + 1) primFeed derivFeed base amount quote =
        some (0, false) ∧
      calcLiveAssetValue env (fuel + 1) primFeed derivFeed base amount quote =
        some (0, false) := by
  intro env fuel primFeed derivFeed base amount quote hg
  unfold calcCanonicalAssetValue calcLiveAssetValue calcAssetValue
  rw [if_pos hg, if_pos hg]
  exact ⟨rfl, rfl⟩

/-- Witness for the C10 theorem: a zero amount of asset 2, which is a
correctly priced primitive of `priceEnvA` and also the quote asset, is
valued as `(0, false)` — invalid, not a valid zero. -/
theorem zero_guard_zero_invalid_witness :
    calcCanonicalAssetValue priceEnvA 1 7 0 2 0 2 = some (0, false) ∧
    calcLiveAssetValue priceEnvA 1 7 0 2 0 2 = some (0, false) :=
  zero_guard_zero_invalid priceEnvA 0 7 0 2 0 2 (by decide)

/-! ## C8: derivative valuation decomposes into a sum with AND-reduced
validity -/

/-- The specification shape of the derivative loop: value each
underlying pair independently and collect the results. -/
def optMapList (f : Nat × Nat → Option (Nat × Bool)) :
    List (Nat × Nat) → Option (List (Nat × Bool))
  | [] => some []
  | p :: ps => do
      let b ← f p
      let bs ← optMapList f ps
      pure (b :: bs)

/-- The accumulator loop of `__calcDerivativeValue` computes the sum of
the per-underlying values and the AND of the per-underlying validity
flags. -/
theorem derivLoop_spec (recv : Nat → Nat → Option (Nat × Bool))
    (conv : Nat → Nat → Option Nat) :
    ∀ (us rs : List Nat) (acc : Nat) (ok : Bool) (v : Nat) (k : Bool),
      us.length ≤ rs.length →
      derivLoop recv conv us rs acc ok = some (v, k) →
      ∃ l, optMapList (fun p => (conv p.1 p.2).bind (fun ua => recv p.1 ua))
            (us.zip rs) = some l ∧
        v = acc + (l.map Prod.fst).sum ∧
        k = (ok && (l.map Prod.snd).all (fun b => b)) := by
  intro us
  induction us with
  | nil =>
      intro rs acc ok v k hlen h
      unfold derivLoop at h
      have heq := Option.some.inj h
      simp only [Prod.mk.injEq] at heq
      obtain ⟨rfl, rfl⟩ := heq
      exact ⟨[], rfl, by simp, by simp⟩
  | cons u us2 ih =>
      intro rs acc ok v k hlen h
      cases rs with
      | nil => simp at hlen
      | cons r rs2 =>
          unfold derivLoop at h
          obtain ⟨ua, hua, h⟩ := Option.bind_eq_some.mp h
          obtain ⟨res, hres, h⟩ := Option.bind_eq_some.mp h
          obtain ⟨acc2, hacc2, h⟩ := Option.bind_eq_some.mp h
          have hlen2 : us2.length ≤ rs2.length := by
            simp only [List.length_cons] at hlen
            omega
          obtain ⟨l, hl, hv, hk⟩ := ih rs2 acc2 (ok && res.2) v k hlen2 h
          have hacc := cadd_eq_some _ _ _ hacc2
          refine ⟨res :: l, ?_, ?_, ?_⟩
          · show optMapList _ ((u, r) :: us2.zip rs2) = some (res :: l)
            unfold optMapList
            simp [hua, hres, hl]
          · simp only [List.map_cons, List.sum_cons]
            omega
          · simp only [List.map_cons, List.all_cons] at hk ⊢
            rw [hk, Bool.and_assoc]

/-- Claim C8 confirmed: a successful derivative valuation equals the
sum of the recursively computed values of its underlying
(asset, amount) pairs — the amounts obtained through the per-unit
conversion rates of the derivative oracle — and its validity flag is
the AND-reduction of the underlying validity flags: false if any
underlying valuation is invalid, true only if all are valid. -/
theorem derivative_value_sum_and :
    ∀ (env : PriceEnv) (fuel primFeed derivFeed deriv amount quote : Nat)
      (useLive : Bool) (v : Nat) (k : Bool),
      (env.getRatesToUnderlyings deriv).1.length ≤
        (env.getRatesToUnderlyings deriv).2.length →
      calcDerivativeValue env fuel primFeed derivFeed deriv amount quote useLive =
        some (v, k) →
      ∃ l, optMapList
            (fun p => (calcDenormalizedConversionAmount env deriv amount p.1 p.2).bind
              (fun ua => calcAssetValue env fuel primFeed derivFeed p.1 ua quote useLive))
            ((env.getRatesToUnderlyings deriv).1.zip
              (env.getRatesToUnderlyings deriv).2) = some l ∧
        v = (l.map Prod.fst).sum ∧
        k = (l.map Prod.snd).all (fun b => b) := by
  intro env fuel primFeed derivFeed deriv amount quote useLive v k hlen h
  unfold calcDerivativeValue calcDerivativeValueGo at h
  obtain ⟨l, hl, hv, hk⟩ := derivLoop_spec
    (fun u ua => calcAssetValue env fuel primFeed derivFeed u ua quote useLive)
    (fun u r => calcDenormalizedConversionAmount env deriv amount u r)
    (env.getRatesToUnderlyings deriv).1 (env.getRatesToUnderlyings deriv).2
    0 true v k hlen h
  refine ⟨l, hl, by omega, by simpa using hk⟩

/-- Witness for the C8 theorem: the derivative asset 9 of `priceEnvB`
(one underlying, asset 1, at rate 1e18) valued in asset 2 decomposes
into the single recursive valuation `(2e18, true)`, whose sum and AND
give the derivative result. -/
theorem derivative_value_sum_and_witness :
    ∃ l, optMapList
          (fun p => (calcDenormalizedConversionAmount priceEnvB 9 (10 ^ 18) p.1 p.2).bind
            (fun ua => calcAssetValue priceEnvB 1 100 200 p.1 ua 2 false))
          ((priceEnvB.getRatesToUnderlyings 9).1.zip
            (priceEnvB.getRatesToUnderlyings 9).2) = some l ∧
      2 * 10 ^ 18 = (l.map Prod.fst).sum ∧
      true = (l.map Prod.snd).all (fun b => b) :=
  derivative_value_sum_and priceEnvB 1 100 200 9 (10 ^ 18) 2 false
    (2 * 10 ^ 18) true (by decide) (by decide)
